import Mathlib

/-!
A verification development for the `mostly-entity` object-transformation
library.  The JavaScript sources (`src/entity.js`, `src/dynamic.js`,
`src/utils.js`) are shallowly embedded: JavaScript runtime values become the
inductive type `JSValue`, the dynamic type-conversion registry becomes an
association list of converter functions, and the `Entity` mapping engine
becomes a pair of mutually inductive types (`Entity`, `Mapping`) together with
an executable `parse` function.  Machine floats are abstracted to `Int` (with
a separate `nan` constructor); date parsing of strings is abstracted to
decimal parsing.  Thrown JavaScript exceptions are modelled with
`Except String`.
-/

/-- The model of a JavaScript runtime value as manipulated by the library.
`nan` is the floating-point NaN (`typeof` number); `date` is a `Date` object
carrying its timestamp; `obj` is a plain object as an insertion-ordered
association list. -/
inductive JSValue : Type where
  | undef : JSValue
  | null : JSValue
  | boolean : Bool → JSValue
  | number : Int → JSValue
  | nan : JSValue
  | str : String → JSValue
  | arr : List JSValue → JSValue
  | obj : List (String × JSValue) → JSValue
  | date : Int → JSValue

namespace JSValue

/-- JavaScript truthiness of a value. -/
def truthy : JSValue → Bool
  | .undef => false
  | .null => false
  | .boolean b => b
  | .number n => n != 0
  | .nan => false
  | .str s => s ≠ ""
  | .arr _ => true
  | .obj _ => true
  | .date _ => true

/-- `fp.isNil` (ramda): `null` or `undefined`. -/
def isNil : JSValue → Bool
  | .undef => true
  | .null => true
  | _ => false

/-- `fp.isEmpty` (ramda): an empty string, array or object. -/
def isEmptyJS : JSValue → Bool
  | .str s => s = ""
  | .arr xs => xs.isEmpty
  | .obj kvs => kvs.isEmpty
  | _ => false

/-- `_.isObject` (lodash): arrays, plain objects and `Date` objects. -/
def isObjectJS : JSValue → Bool
  | .arr _ => true
  | .obj _ => true
  | .date _ => true
  | _ => false

/-- `_.isPlainObject` (lodash). -/
def isPlainObject : JSValue → Bool
  | .obj _ => true
  | _ => false

def isArray : JSValue → Bool
  | .arr _ => true
  | _ => false

def isString : JSValue → Bool
  | .str _ => true
  | _ => false

def isUndef : JSValue → Bool
  | .undef => true
  | _ => false

/-- `val === 0`. -/
def isNumberZero : JSValue → Bool
  | .number n => n == 0
  | _ => false

/-- `val === undefined || val === ''`. -/
def isUndefOrEmptyStr : JSValue → Bool
  | .undef => true
  | .str s => s == ""
  | _ => false

end JSValue

/-- `Number(v)` coercion, abstracted: numeric strings parse as decimal
integers, everything unparseable is NaN. -/
def toNumberJS : JSValue → JSValue
  | .number n => .number n
  | .nan => .nan
  | .boolean b => .number (if b then 1 else 0)
  | .null => .number 0
  | .undef => .nan
  | .str s => match s.trim.toInt? with
      | some n => .number n
      | none => if s.trim = "" then .number 0 else .nan
  | .date d => .number d
  | .arr _ => .nan
  | .obj _ => .nan

/-- `String(v)` coercion (abstract rendering for composite values). -/
def toStringJS : JSValue → JSValue
  | .str s => .str s
  | .number n => .str (toString n)
  | .nan => .str "NaN"
  | .boolean b => .str (if b then "true" else "false")
  | .null => .str "null"
  | .undef => .str "undefined"
  | .date d => .str ("Date(" ++ toString d ++ ")")
  | .arr _ => .str ""
  | .obj _ => .str "[object Object]"

/-- `new Date(v)`, abstracted: numbers become timestamps, strings are parsed
as decimal timestamps (string-format date parsing is out of the model). -/
def newDateJS : JSValue → JSValue
  | .date d => .date d
  | .number n => .date n
  | .str s => .date (s.trim.toInt?.getD 0)
  | _ => .date 0

/-- A registered dynamic converter: `(val, ctx) -> value`. -/
abbrev RegConv := JSValue → JSValue → JSValue

/-- The process-wide converter registry `Dynamic.converters`, as an
association list (later registrations are looked up first). -/
abbrev Registry := List (String × RegConv)

/-- Built-in `number` converter (dynamic.js `convertNumber`). -/
def convertNumber : RegConv := fun val _ =>
  if val.isNumberZero then val
  else if ¬ val.truthy then val
  else toNumberJS val

/-- Built-in `date` converter (dynamic.js `convertDate`). -/
def convertDate : RegConv := fun val _ =>
  match val with
  | .date d => .date d
  | v => if ¬ v.truthy then v else newDateJS v

/-- Built-in `string` converter (dynamic.js `convertString`). -/
def convertString : RegConv := fun val _ =>
  match val with
  | .str s => .str s
  | v => if ¬ v.truthy then v else toStringJS v

/-- Built-in `boolean` converter (dynamic.js `convertBoolean`). -/
def convertBoolean : RegConv := fun val _ =>
  match val with
  | .str s =>
      match s with
      | "false" => .boolean false
      | "undefined" => .boolean false
      | "null" => .boolean false
      | "0" => .boolean false
      | "" => .boolean false
      | _ => .boolean true
  | .number n => .boolean (n != 0)
  | .nan => .boolean true
  | v => .boolean v.truthy

/-- Built-in `any` converter (identity). -/
def convertAny : RegConv := fun val _ => val

/-- The registry as seeded at module load. -/
def builtinRegistry : Registry :=
  [("number", convertNumber), ("date", convertDate), ("string", convertString),
   ("boolean", convertBoolean), ("any", convertAny)]

/-- `Dynamic.getConverter`. -/
def getConverter (reg : Registry) (t : String) : Option RegConv :=
  match reg with
  | [] => none
  | (n, c) :: rest => if n = t then some c else getConverter rest t

/-- `Dynamic.canConvert`. -/
def canConvert (reg : Registry) (t : String) : Bool :=
  (getConverter reg t).isSome

/-- `Dynamic#to`: look up the converter and apply it; the `assert` throws a
"No Type converter defined" error when the type is unregistered. -/
def dynTo (reg : Registry) (val : JSValue) (t : String) (ctx : JSValue) :
    Except String JSValue :=
  match getConverter reg t with
  | some c => .ok (c val ctx)
  | none => .error ("No Type converter defined for " ++ t)

/-- A field type as stored in a mapping: a scalar type name or the
single-element array form. -/
inductive TypeDesc : Type where
  | scalar : String → TypeDesc
  | arrayOf : String → TypeDesc
  deriving DecidableEq, Repr

mutual

/-- Scalar-type conversion of a value (the tail of `Dynamic.convert`): an
array value is mapped element-wise, anything else goes through the registry. -/
def convertScalar (reg : Registry) (t : String) (ctx : JSValue) :
    JSValue → Except String JSValue
  | .arr xs => (convertList reg t ctx xs).map .arr
  | .undef => dynTo reg .undef t ctx
  | .null => dynTo reg .null t ctx
  | .boolean b => dynTo reg (.boolean b) t ctx
  | .number n => dynTo reg (.number n) t ctx
  | .nan => dynTo reg .nan t ctx
  | .str s => dynTo reg (.str s) t ctx
  | .obj kvs => dynTo reg (.obj kvs) t ctx
  | .date d => dynTo reg (.date d) t ctx

def convertList (reg : Registry) (t : String) (ctx : JSValue) :
    List JSValue → Except String (List JSValue)
  | [] => .ok []
  | v :: vs => do
      let w ← convertScalar reg t ctx v
      let ws ← convertList reg t ctx vs
      .ok (w :: ws)

end

/-- `Dynamic.convert(val, toType, ctx)`: the array-form descriptor wraps a
non-array value (with `undefined` and `''` becoming the empty array) before
element-wise scalar conversion. -/
def dynConvert (reg : Registry) (val : JSValue) (toType : TypeDesc)
    (ctx : JSValue) : Except String JSValue :=
  match toType with
  | .arrayOf t =>
      let val := if val.isArray then val
        else if val.isUndefOrEmptyStr then .arr []
        else .arr [val]
      convertScalar reg t ctx val
  | .scalar t => convertScalar reg t ctx val

/-- A `Function`-act rule callback `(obj, options)`; it may throw. -/
abbrev FieldFn := JSValue → JSValue → Except String JSValue

/-- An `if`-condition predicate `(obj, options)`. -/
abbrev CondFn := JSValue → JSValue → Bool

/-- The optional converter function passed to `parse`. -/
abbrev UserConv := JSValue → JSValue → JSValue

/-- The `act`/`value` pair of a field rule.  In the source `act` is a string
tag and `value` a polymorphic slot; each constructor carries the value shape
that tag stores. -/
inductive Act : Type where
  | aliasA (path : String)
  | funcA (f : FieldFn)
  | getA (path : JSValue)
  | valueA (v : JSValue)
  | omitA (keys : JSValue)

mutual

/-- An `Entity`: name, the `_mappings` rule table (insertion-ordered, keys
unique when built through `expose`), the `_discards` set (`none` models the
initial `false`), and the frozen flag (`Immutable.isImmutable`). -/
inductive Entity : Type where
  | mk (name : String) (mappings : List (String × Mapping))
      (discards : Option (List String)) (frozen : Bool)

/-- One field rule as stored by `expose`: type, act/value, `default`
(`JSValue.undef` models an absent/undefined default, as `parse` tests
`opt.default !== undefined`), the `if` predicate and the `using` entity. -/
inductive Mapping : Type where
  | mk (type : TypeDesc) (act : Act) (dflt : JSValue)
      (condP : Option CondFn) (usingE : Option Entity)

end

def Entity.name : Entity → String
  | .mk n _ _ _ => n

def Entity.mappings : Entity → List (String × Mapping)
  | .mk _ ms _ _ => ms

def Entity.discards : Entity → Option (List String)
  | .mk _ _ d _ => d

def Entity.frozen : Entity → Bool
  | .mk _ _ _ f => f

def Mapping.type : Mapping → TypeDesc
  | .mk t _ _ _ _ => t

def Mapping.act : Mapping → Act
  | .mk _ a _ _ _ => a

def Mapping.dflt : Mapping → JSValue
  | .mk _ _ d _ _ => d

def Mapping.condP : Mapping → Option CondFn
  | .mk _ _ _ c _ => c

def Mapping.usingE : Mapping → Option Entity
  | .mk _ _ _ _ u => u

/-- Property assignment on the rule table: JavaScript objects keep the
original insertion position when a key is re-assigned. -/
def setMappingList : List (String × Mapping) → String → Mapping →
    List (String × Mapping)
  | [], k, m => [(k, m)]
  | (k', m') :: rest, k, m =>
      if k' = k then (k, m) :: rest else (k', m') :: setMappingList rest k m

def setMappingOn (e : Entity) (k : String) (m : Mapping) : Entity :=
  .mk e.name (setMappingList e.mappings k m) e.discards e.frozen

def lookupMappingList : List (String × Mapping) → String → Option Mapping
  | [], _ => none
  | (k', m) :: rest, k => if k' = k then some m else lookupMappingList rest k

/-- `self._mappings[key]`. -/
def lookupMapping (e : Entity) (k : String) : Option Mapping :=
  lookupMappingList e.mappings k

/-- `Object.keys(self._mappings)`. -/
def mappingKeys (e : Entity) : List String := e.mappings.map Prod.fst

/-- `new Entity(name)` before any `define` call. -/
def newEntity (name : String) : Entity :=
  .mk (if name = "" then "UnNamed" else name) [] none false

/-- Keep the first occurrence of each element (the dedup order of lodash
`_.union`). -/
def dedupFirst : List String → List String
  | [] => []
  | x :: xs => x :: dedupFirst (xs.filter (fun y => y ≠ x))
termination_by l => l.length
decreasing_by
  simp only [List.length_cons]
  exact Nat.lt_succ_of_le (List.length_filter_le _ _)

/-- lodash `_.union`. -/
def unionJS (a b : List String) : List String := dedupFirst (a ++ b)

/-- lodash `_.difference`: order and duplicates of the first list kept. -/
def differenceJS (a b : List String) : List String :=
  a.filter (fun k => ¬ b.contains k)

/-- `Entity#discard`: union the previous discard set (or `[]`), the given
names and the implicit `__v` marker. -/
def discardOn (e : Entity) (names : List String) : Entity :=
  .mk e.name e.mappings (some (dedupFirst (e.discards.getD [] ++ names ++ ["__v"])))
    e.frozen

/-- `Entity#freeze` (seamless-immutable snapshot, modelled as a flag). -/
def freezeE (e : Entity) : Entity :=
  .mk e.name e.mappings e.discards true

/-- `Entity#extend(name)`: requires a frozen receiver; returns the deep
mutable clone under the new name (value semantics stand in for the deep
clone made by `asMutable({deep: true})`). -/
def extendE (e : Entity) (name : String) : Except String Entity :=
  if e.frozen then .ok (.mk name e.mappings e.discards false)
  else .error ("Cannot extend an mutable entity: " ++ e.name)

/-- The name pattern of `expose`: `/^[a-zA-Z0-9_\.]+$/`. -/
def validNameStr (s : String) : Bool :=
  s ≠ "" && s.toList.all (fun c => c.isAlphanum || c = '_' || c = '.')

/-- The recognised keys of an `expose` options object.  A `JSValue.undef`
field models an absent key; `hasDefault` models `hasOwnProperty('default')`
with `defaultOpt` the stored value.  The `if` predicate and `using` entity
are carried already checked (their `assert`s accept every model value). -/
structure ExposeOptions : Type where
  asOpt : JSValue := .undef
  getOpt : JSValue := .undef
  valueOpt : JSValue := .undef
  omitOpt : JSValue := .undef
  typeOpt : JSValue := .undef
  hasDefault : Bool := false
  defaultOpt : JSValue := .undef
  ifOpt : Option CondFn := none
  usingOpt : Option Entity := none

/-- `_.isEmpty(options)`. -/
def ExposeOptions.isEmptyOpts (o : ExposeOptions) : Bool :=
  o.asOpt.isUndef && o.getOpt.isUndef && o.valueOpt.isUndef &&
  o.omitOpt.isUndef && o.typeOpt.isUndef && !o.hasDefault &&
  o.ifOpt.isNone && o.usingOpt.isNone

/-- Lines 149-154 of entity.js: the array form builds an array and the
subsequent `type.toLowerCase()` call is then a `TypeError`, as it also is for
a truthy non-string type. -/
def extractType (t : JSValue) : Except String TypeDesc :=
  match t with
  | .arr _ => .error "TypeError: type.toLowerCase is not a function"
  | v =>
      if v.truthy then
        match v with
        | .str s => .ok (.scalar s.toLower)
        | _ => .error "TypeError: type.toLowerCase is not a function"
      else .ok (.scalar "any")

/-- The per-name body of `expose` (the `_.each(arguments, ...)` callback,
entity.js lines 133-209).  Note that all three option-conflict assertions in
the source test the same `options.as && fn` condition, so only the first can
fire. -/
def exposeOne (opts : ExposeOptions) (fn : Option FieldFn) (e : Entity)
    (name : String) : Except String Entity :=
  if ¬ validNameStr name then
    .error ("'" ++ name ++ "' is not a valid string")
  else if opts.asOpt.truthy && fn.isSome then
    .error "You can not use the :as option with function."
  else
    match extractType opts.typeOpt with
    | .error msg => .error msg
    | .ok type =>
      let act0 : Act := match fn with
        | some f => .funcA f
        | none => .aliasA name
      if opts.isEmptyOpts then
        .ok (setMappingOn e name (Mapping.mk type act0 .null none none))
      else
        let dflt : JSValue :=
          if opts.hasDefault then
            (if opts.defaultOpt.isUndef then .null else opts.defaultOpt)
          else .null
        let condP := opts.ifOpt
        let usingE := opts.usingOpt
        if opts.asOpt.truthy then
          match opts.asOpt with
          | .str s =>
              .ok (setMappingOn e s (Mapping.mk type (.aliasA name) dflt condP usingE))
          | _ => .error "'(as value)' is not a valid string"
        else if opts.getOpt.truthy then
          .ok (setMappingOn e name (Mapping.mk type (.getA opts.getOpt) dflt condP usingE))
        else if opts.valueOpt.truthy then
          .ok (setMappingOn e name (Mapping.mk type (.valueA opts.valueOpt) dflt condP usingE))
        else if opts.omitOpt.truthy then
          .ok (setMappingOn e name (Mapping.mk type (.omitA opts.omitOpt) dflt condP usingE))
        else
          .ok (setMappingOn e name (Mapping.mk type act0 dflt condP usingE))

/-- `Entity#expose` after the variadic argument split: names, then the
options object, then the trailing function. -/
def expose (e : Entity) (names : List String) (opts : ExposeOptions)
    (fn : Option FieldFn) : Except String Entity :=
  if names.isEmpty then
    .error "'undefined' is not a valid string"
  else if names.length > 1 && opts.asOpt.truthy then
    .error "You may not use the :as option on multi-attribute exposures."
  else if names.length > 1 && fn.isSome then
    .error "You may not use function on multi-attribute exposures."
  else
    names.foldlM (exposeOne opts fn) e

/-- Split a string on `'.'` (the path splitting of `_.get`/`_.set`). -/
def splitDotsAux : List Char → List Char → List String
  | [], acc => [String.mk acc.reverse]
  | c :: cs, acc =>
      if c = '.' then String.mk acc.reverse :: splitDotsAux cs []
      else splitDotsAux cs (c :: acc)

def splitDots (s : String) : List String := splitDotsAux s.toList []

def lookupKey : List (String × JSValue) → String → Option JSValue
  | [], _ => none
  | (k', v) :: rest, k => if k' = k then some v else lookupKey rest k

/-- Walk an already-split path. -/
def getSegs : JSValue → List String → JSValue
  | v, [] => v
  | .obj kvs, k :: rest =>
      match lookupKey kvs k with
      | some c => getSegs c rest
      | none => .undef
  | .arr xs, k :: rest =>
      match k.toNat? with
      | some i =>
          match xs.get? i with
          | some c => getSegs c rest
          | none => .undef
      | none => .undef
  | _, _ :: _ => JSValue.undef

/-- `_.get(obj, path)` for a string dot path; non-string paths resolve to
`undefined` in the model. -/
def lodashGet (o : JSValue) (path : JSValue) : JSValue :=
  match path with
  | .str s => getSegs o (splitDots s)
  | _ => JSValue.undef

/-- Property assignment preserving JavaScript key insertion order. -/
def setKeyList : List (String × JSValue) → String → JSValue →
    List (String × JSValue)
  | [], k, v => [(k, v)]
  | (k', v') :: rest, k, v =>
      if k' = k then (k, v) :: rest else (k', v') :: setKeyList rest k v

/-- `_.set` on an already-split path, creating plain objects for missing or
non-object intermediates (array-index creation is out of the model). -/
def setSegs : JSValue → List String → JSValue → JSValue
  | r, [], _ => r
  | .obj kvs, [k], v => .obj (setKeyList kvs k v)
  | .obj kvs, k :: k2 :: rest, v =>
      let child := match lookupKey kvs k with
        | some c => if c.isObjectJS then c else .obj []
        | none => .obj []
      .obj (setKeyList kvs k (setSegs child (k2 :: rest) v))
  | r, _ :: _, _ => r

/-- `_.set(result, key, val)`. -/
def lodashSet (r : JSValue) (key : String) (v : JSValue) : JSValue :=
  setSegs r (splitDots key) v

/-- `_.omit(value, keys)` in the model: strip the listed string keys from a
plain object; lodash yields `{}` for non-objects. -/
def omitJS (v : JSValue) (keys : JSValue) : JSValue :=
  let ks : List String := match keys with
    | .arr xs => xs.filterMap (fun x => match x with | .str s => some s | _ => none)
    | .str s => [s]
    | _ => []
  match v with
  | .obj kvs => .obj (kvs.filter (fun kv => ¬ ks.contains kv.1))
  | _ => .obj []

/-- The rule synthesized by `parse` for a key with no explicit mapping
(`{ act: 'alias', value: key, type: 'any' }`): its `default` is the absent
(undefined) default. -/
def defaultMapping (key : String) : Mapping :=
  .mk (.scalar "any") (.aliasA key) .undef none none

/-- `_.isEmpty(self._discards)` (`isEmpty(false)` is `true`). -/
def discardsEmpty (e : Entity) : Bool :=
  match e.discards with
  | none => true
  | some l => l.isEmpty

/-- Lines 241-243 of entity.js: a non-plain-object `options` becomes `{}`. -/
def normOptions (o : JSValue) : JSValue :=
  if o.isPlainObject then o else .obj []

/-- The backing insertion order of an object's keys (the association-list
order of the model, matching the order in which properties were first
assigned). -/
def insertionKeys : JSValue → List String
  | .obj kvs => kvs.map Prod.fst
  | _ => []

/-- A canonical JavaScript array-index key: a non-empty all-digit string with
no leading zero (except `"0"` itself) whose value is below `2^32 - 1`;
`none` for every other property name. -/
def arrayIndexKey (s : String) : Option Nat :=
  let cs := s.toList
  if cs ≠ [] ∧ cs.all Char.isDigit ∧ (cs.head? ≠ some '0' ∨ cs = ['0']) then
    let n := cs.foldl (fun a c => a * 10 + (c.toNat - 48)) 0
    if n < 4294967295 then some n else none
  else none

/-- JavaScript property enumeration order: integer-like (array-index) keys
come first in ascending numeric order, then the remaining string keys in
insertion order. -/
def jsKeyOrder (ks : List String) : List String :=
  (ks.filter (fun k => (arrayIndexKey k).isSome)).insertionSort
      (fun a b => (arrayIndexKey a).getD 0 ≤ (arrayIndexKey b).getD 0)
    ++ ks.filter (fun k => (arrayIndexKey k).isNone)

/-- `Object.keys` of a parsed working object, in JavaScript enumeration
order. -/
def topKeys : JSValue → List String
  | .obj kvs => jsKeyOrder (kvs.map Prod.fst)
  | _ => []

/-- The key set before sorting: the rule-table keys, and in discard mode the
union with the working object's keys minus the discard set. -/
def activeKeysBase (e : Entity) (o : JSValue) : List String :=
  match e.discards with
  | some ds => differenceJS (unionJS (mappingKeys e) (topKeys o)) ds
  | none => mappingKeys e

/-- `_.sortBy(keys)`: lexicographically ascending. -/
def sortStrings (l : List String) : List String :=
  l.insertionSort (· ≤ ·)

/-- Lines 268-270: `keys.unshift('id')` without removing the sorted
occurrence — `id` is processed twice when present. -/
def idFront (keys : List String) : List String :=
  if keys.contains "id" then "id" :: keys else keys

/-- The raw value of the `act` switch (entity.js lines 281-309); a throwing
`Function` callback is caught and yields null. -/
def rawValue (m : Mapping) (key : String) (obj options : JSValue) : JSValue :=
  match m.act with
  | .funcA f =>
      match f obj options with
      | .ok v => v
      | .error _ => .null
  | .aliasA p => lodashGet obj (.str p)
  | .getA p => lodashGet obj p
  | .omitA ks =>
      let v := lodashGet obj (.str key)
      if v.truthy then omitJS v ks else v
  | .valueA v => v

/-- The `Dynamic.convert` cast with the catch of entity.js lines 331-336: a
conversion error leaves the pre-coercion value in place. -/
def applyConvertCaught (reg : Registry) (val : JSValue) (t : TypeDesc)
    (options : JSValue) : JSValue :=
  match dynConvert reg val t options with
  | .ok v => v
  | .error _ => val

/-- Lines 277-279: a present `if` predicate returning false skips the key. -/
def condSkips (m : Mapping) (obj options : JSValue) : Bool :=
  match m.condP with
  | some c => ¬ c obj options
  | none => false

theorem lookupMappingList_sizeOf {l : List (String × Mapping)} {k : String}
    {m : Mapping} (h : lookupMappingList l k = some m) : sizeOf m < sizeOf l := by
  induction l with
  | nil => simp [lookupMappingList] at h
  | cons a rest ih =>
      obtain ⟨k', m'⟩ := a
      by_cases hk : k' = k
      · simp [lookupMappingList, hk] at h
        subst h
        simp only [List.cons.sizeOf_spec, Prod.mk.sizeOf_spec]
        omega
      · simp only [lookupMappingList, hk, if_false] at h
        have := ih h
        simp only [List.cons.sizeOf_spec]
        omega

theorem lookupMapping_sizeOf {e : Entity} {k : String} {m : Mapping}
    (h : lookupMapping e k = some m) : sizeOf m < sizeOf e := by
  obtain ⟨n, ms, d, f⟩ := e
  have h' : lookupMappingList ms k = some m := h
  have := lookupMappingList_sizeOf h'
  simp only [Entity.mk.sizeOf_spec]
  omega

theorem usingE_sizeOf {m : Mapping} {u : Entity} (h : m.usingE = some u) :
    sizeOf u < sizeOf m := by
  obtain ⟨t, a, d, c, uo⟩ := m
  simp only [Mapping.usingE] at h
  subst h
  simp only [Mapping.mk.sizeOf_spec, Option.some.sizeOf_spec]
  omega

mutual

/-- `Entity#parse` (entity.js lines 218-347).  The mongoose/sequelize unwrap
protocol (`toObject`/`toJSON`) is not representable in `JSValue`, so the
working object is the input itself; the function-as-options overload is
normalized away by `normOptions` exactly as lines 237-243 do. -/
def parse (reg : Registry) (e : Entity) (input options : JSValue)
    (conv : Option UserConv) : JSValue :=
  if input.isNil || input.isEmptyJS then input
  else
    match input with
    | .arr xs => .arr (parseList reg e xs (normOptions options) conv)
    | orig =>
        if (mappingKeys e).isEmpty && discardsEmpty e then orig
        else if ¬ orig.isObjectJS then orig
        else
          processKeys reg e (idFront (sortStrings (activeKeysBase e orig))) orig
            (normOptions options) conv (.obj [])
termination_by (sizeOf e, 2 * sizeOf input + 1, 0)
decreasing_by
  · apply Prod.Lex.right
    apply Prod.Lex.left
    simp only [JSValue.arr.sizeOf_spec]
    omega
  · apply Prod.Lex.right
    apply Prod.Lex.left
    omega

/-- The `_.each` loop of the array branch (lines 246-252). -/
def parseList (reg : Registry) (e : Entity) (xs : List JSValue)
    (options : JSValue) (conv : Option UserConv) : List JSValue :=
  match xs with
  | [] => []
  | x :: rest => parse reg e x options conv :: parseList reg e rest options conv
termination_by (sizeOf e, 2 * sizeOf xs, 0)
decreasing_by
  · apply Prod.Lex.right
    apply Prod.Lex.left
    simp only [List.cons.sizeOf_spec]
    omega
  · apply Prod.Lex.right
    apply Prod.Lex.left
    simp only [List.cons.sizeOf_spec]
    omega

/-- The `_.each(keys, ...)` loop (lines 272-342), threading the accumulated
result object: each iteration is one `writeStep`. -/
def processKeys (reg : Registry) (e : Entity) (keys : List String)
    (obj options : JSValue) (conv : Option UserConv) (result : JSValue) :
    JSValue :=
  match keys with
  | [] => result
  | k :: ks =>
      processKeys reg e ks obj options conv
        (writeStep reg e obj options conv result k)
termination_by (sizeOf e, 0, 2 + keys.length)
decreasing_by
  all_goals apply Prod.Lex.right
  all_goals apply Prod.Lex.right
  all_goals simp [List.length_cons]
  all_goals omega

/-- One iteration of the key loop: write the key's final value into the
result (at its dotted path) unless the key was skipped or its value is
undefined (lines 338-341). -/
def writeStep (reg : Registry) (e : Entity) (obj options : JSValue)
    (conv : Option UserConv) (result : JSValue) (k : String) : JSValue :=
  match keyOutcome reg e obj options conv k with
  | none => result
  | some v => lodashSet result k v
termination_by (sizeOf e, 0, 1)
decreasing_by
  apply Prod.Lex.right
  apply Prod.Lex.right
  omega

/-- The final value computed for one key by the loop body of `parse`
(lines 272-337): `none` when the key is skipped by its `if` condition or its
final value is undefined. -/
def keyOutcome (reg : Registry) (e : Entity) (obj options : JSValue)
    (conv : Option UserConv) (k : String) : Option JSValue :=
  match hlk : lookupMapping e k with
  | none =>
      -- the synthesized rule: no `if`, no `using`, undefined default
      let m := defaultMapping k
      let v0 := rawValue m k obj options
      let v1 := match conv with
        | some c => c v0 options
        | none => v0
      let v2 := applyConvertCaught reg v1 m.type options
      if ¬ v2.isUndef then some v2 else none
  | some m =>
      if condSkips m obj options then none
      else
        let v0 := rawValue m k obj options
        let defaulted := v0.isNil && ¬ m.dflt.isUndef
        let v1 := if defaulted then m.dflt else v0
        let v2 := match conv with
          | some c => c v1 options
          | none => v1
        let v3 := match hu : m.usingE with
          | some u => if ¬ defaulted then parse reg u v2 options conv else v2
          | none => v2
        let v4 := applyConvertCaught reg v3 m.type options
        if ¬ v4.isUndef then some v4 else none
termination_by (sizeOf e, 0, 0)
decreasing_by
  exact Prod.Lex.left _ _ (Nat.lt_trans (usingE_sizeOf hu) (lookupMapping_sizeOf hlk))

end

theorem lookupMappingList_setMappingList (l : List (String × Mapping))
    (k0 k : String) (m0 : Mapping) :
    lookupMappingList (setMappingList l k0 m0) k =
      if k0 = k then some m0 else lookupMappingList l k := by
  induction l with
  | nil => simp [setMappingList, lookupMappingList]
  | cons a rest ih =>
      obtain ⟨k1, m1⟩ := a
      by_cases h1 : k1 = k0
      · subst h1
        simp only [setMappingList, if_pos rfl]
        by_cases hk : k1 = k
        · simp [lookupMappingList, hk]
        · simp [lookupMappingList, hk]
      · simp only [setMappingList, if_neg h1]
        by_cases hk : k1 = k
        · subst hk
          have hk0 : ¬ k0 = k1 := fun h => h1 h.symm
          simp [lookupMappingList, if_neg hk0]
        · simp [lookupMappingList, hk, ih]

theorem lookupMapping_setMappingOn (e : Entity) (k0 k : String) (m0 : Mapping) :
    lookupMapping (setMappingOn e k0 m0) k =
      if k0 = k then some m0 else lookupMapping e k := by
  simp [lookupMapping, setMappingOn, Entity.mappings,
    lookupMappingList_setMappingList]

theorem normOptions_idem (o : JSValue) :
    normOptions (normOptions o) = normOptions o := by
  cases o <;> simp [normOptions, JSValue.isPlainObject]

/-- C2 — counterexample: contrary to the claim, `convert(null, ["number"])`
wraps null into a one-element array (only `undefined` and `''` become `[]`),
so the result is `[null]`, not `[]`. -/
theorem c2_counterexample :
    dynConvert builtinRegistry .null (.arrayOf "number") (.obj []) =
      .ok (.arr [.null])
    ∧ (Except.ok (.arr [.null]) : Except String JSValue) ≠ .ok (.arr []) := by
  refine ⟨rfl, ?_⟩
  intro h
  simp at h

/-- C2 (amended): for the array-form descriptor, `convert` treats `undefined`
and the empty string as the empty array, and wraps any other non-array value
— including `null` — as a one-element array before element-wise coercion:
`convert(undefined, ["number"]) == []`, `convert("", ["number"]) == []`,
`convert(n, ["number"]) == [n]` for every number `n`, and
`convert(null, ["number"]) == [null]`. -/
theorem c2_array_wrapping :
    dynConvert builtinRegistry .undef (.arrayOf "number") (.obj []) = .ok (.arr [])
    ∧ dynConvert builtinRegistry (.str "") (.arrayOf "number") (.obj []) = .ok (.arr [])
    ∧ (∀ n : Int, dynConvert builtinRegistry (.number n) (.arrayOf "number") (.obj [])
        = .ok (.arr [.number n]))
    ∧ dynConvert builtinRegistry .null (.arrayOf "number") (.obj []) = .ok (.arr [.null]) := by
  refine ⟨rfl, rfl, ?_, rfl⟩
  intro n
  by_cases h : n = 0
  · subst h; rfl
  · simp [dynConvert, JSValue.isArray, JSValue.isUndefOrEmptyStr, convertScalar,
      convertList, dynTo, getConverter, builtinRegistry, convertNumber,
      JSValue.isNumberZero, JSValue.truthy, toNumberJS, h]
    rfl

/-- C5 — the code at the failing input: `expose('sex', {value:'male',
as:'gender'})` is accepted (no assertion fires, because all three conflict
assertions test `options.as && fn`), and it stores an alias rule
`gender -> sex` that ignores the `value` option, although the assertion
message `'You can not use the :value option with :as option.'` documents that
this combination was meant to be rejected. -/
theorem c5_value_as_accepted :
    expose (newEntity "E5") ["sex"]
      { asOpt := .str "gender", valueOpt := .str "male" } none =
    .ok (Entity.mk "E5"
      [("gender", Mapping.mk (.scalar "any") (.aliasA "sex") .null none none)]
      none false) := rfl

/-- C9: `extend` on a non-frozen entity throws; on a frozen entity it returns
the mutable clone under the new name with the same rule table and discard
set, and that clone is itself non-frozen (so extending it again fails).
Rule-table independence of the clone is intrinsic to the value semantics of
the embedding, which models the `asMutable({deep: true})` deep clone. -/
theorem c9_extend_requires_frozen :
    ∀ (e : Entity) (n n2 : String),
      (e.frozen = false →
        extendE e n = .error ("Cannot extend an mutable entity: " ++ e.name))
      ∧ (e.frozen = true →
          extendE e n = .ok (Entity.mk n e.mappings e.discards false)
          ∧ extendE (Entity.mk n e.mappings e.discards false) n2 =
              .error ("Cannot extend an mutable entity: " ++ n)) := by
  intro e n n2
  constructor
  · intro h
    simp [extendE, h]
  · intro h
    constructor
    · simp [extendE, h]
    · simp [extendE, Entity.frozen, Entity.name]

/-- C9 witness. -/
theorem c9_extend_requires_frozen_witness :
    extendE (Entity.mk "M" [] none false) "X" =
      .error ("Cannot extend an mutable entity: " ++ "M")
    ∧ extendE (Entity.mk "F" [] none true) "X" =
        .ok (Entity.mk "X" [] none false) := by
  refine ⟨?_, ?_⟩
  · exact (c9_extend_requires_frozen (Entity.mk "M" [] none false) "X" "Y").1 rfl
  · exact ((c9_extend_requires_frozen (Entity.mk "F" [] none true) "X" "Y").2 rfl).1

/-- C10: under a definition with at least one rule or with discard mode
enabled, parsing a non-nil, non-empty, non-object working value returns it
unchanged instead of building an output object. -/
theorem c10_nonobject_passthrough :
    ∀ (reg : Registry) (e : Entity) (v options : JSValue) (conv : Option UserConv),
      (mappingKeys e ≠ [] ∨ (Option.isSome e.discards) = true) →
      v.isNil = false → v.isEmptyJS = false → v.isObjectJS = false →
      parse reg e v options conv = v := by
  intro reg e v options conv _hrules hnil hempty hobj
  cases v <;>
    simp_all [parse, JSValue.isNil, JSValue.isEmptyJS, JSValue.isObjectJS]

/-- C10 witness. -/
theorem c10_nonobject_passthrough_witness :
    parse builtinRegistry
      (Entity.mk "W10" [("a", Mapping.mk (.scalar "any") (.aliasA "a") .null none none)] none false)
      (.number 5) (.obj []) none = .number 5 := by
  apply c10_nonobject_passthrough
  · left
    simp [mappingKeys, Entity.mappings]
  · rfl
  · rfl
  · rfl

/-- A concrete field callback used in counterexamples and witnesses. -/
def f0 : FieldFn := fun _ _ => .ok .null

/-- C4 — counterexample: `expose('x', {get: 'y'}, fn)` stores act `get`, not
act `function`: the option block of `expose` runs after the function
handling and overwrites the act. -/
theorem c4_counterexample :
    expose (newEntity "E4") ["x"] { getOpt := .str "y" } (some f0) =
      .ok (Entity.mk "E4"
        [("x", Mapping.mk (.scalar "any") (.getA (.str "y")) .null none none)]
        none false)
    ∧ Act.getA (.str "y") ≠ Act.funcA f0 := by
  refine ⟨rfl, ?_⟩
  intro h
  exact Act.noConfusion h

/-- C4 (amended): when `expose` is given a trailing function together with a
truthy `get`, `value` or `omit` option, the stored rule's act comes from the
option (the option wins over the function): `get` yields act `get` with the
option's path, `value` yields act `value` with the constant, and `omit`
(with falsy `get`/`value`) yields act `omit`.  Only the `as`+function
combination is rejected. -/
theorem c4_option_beats_function :
    (∀ (e : Entity) (k : String) (g : JSValue) (f : FieldFn) (e' : Entity),
      g.truthy = true →
      expose e [k] { getOpt := g } (some f) = .ok e' →
      lookupMapping e' k =
        some (Mapping.mk (.scalar "any") (.getA g) .null none none))
    ∧ (∀ (e : Entity) (k : String) (v : JSValue) (f : FieldFn) (e' : Entity),
      v.truthy = true →
      expose e [k] { valueOpt := v } (some f) = .ok e' →
      lookupMapping e' k =
        some (Mapping.mk (.scalar "any") (.valueA v) .null none none))
    ∧ (∀ (e : Entity) (k : String) (os : JSValue) (f : FieldFn) (e' : Entity),
      os.truthy = true →
      expose e [k] { omitOpt := os } (some f) = .ok e' →
      lookupMapping e' k =
        some (Mapping.mk (.scalar "any") (.omitA os) .null none none)) := by
  refine ⟨?_, ?_, ?_⟩ <;>
  · intro e k g f e' hg h
    by_cases hv : validNameStr k
    · cases g <;>
        simp_all [expose, List.foldlM, exposeOne, extractType,
          ExposeOptions.isEmptyOpts, JSValue.truthy, JSValue.isUndef,
          lookupMapping_setMappingOn, pure, Except.pure, bind, Except.bind] <;>
        (subst h; simp [lookupMapping_setMappingOn])
    · simp [expose, List.foldlM, exposeOne, hv] at h

/-- C4 witness. -/
theorem c4_option_beats_function_witness :
    lookupMapping
      (Entity.mk "E4w"
        [("x", Mapping.mk (.scalar "any") (.getA (.str "y")) .null none none)]
        none false) "x" =
      some (Mapping.mk (.scalar "any") (.getA (.str "y")) .null none none) :=
  c4_option_beats_function.1 (newEntity "E4w") "x" (.str "y") f0
    (Entity.mk "E4w"
      [("x", Mapping.mk (.scalar "any") (.getA (.str "y")) .null none none)]
      none false) rfl rfl

/-- The entity of the C6 function-error scenario: one `Function`-act rule. -/
def entC6 (f : FieldFn) : Entity :=
  .mk "C6" [("x", Mapping.mk (.scalar "any") (.funcA f) .null none none)] none false

/-- The entity of the C6 coercion-error scenario: a fixed value of an
unregistered type. -/
def entC6b : Entity :=
  .mk "C6b" [("y", Mapping.mk (.scalar "foo") (.valueA (.number 7)) .null none none)]
    none false

/-- C6: a throwing `Function` callback is caught and the field's raw value
falls back to null (here surfacing as a null output value), and a field whose
coercion fails keeps its pre-coercion value; in both cases `parse` completes
and returns a result object. -/
theorem c6_errors_contained :
    (∀ (f : FieldFn) (msg : String),
      f (.obj [("a", .number 1)]) (.obj []) = .error msg →
      parse builtinRegistry (entC6 f) (.obj [("a", .number 1)]) (.obj []) none =
        .obj [("x", .null)])
    ∧ parse builtinRegistry entC6b (.obj [("a", .number 1)]) (.obj []) none =
        .obj [("y", .number 7)] := by
  constructor
  · intro f msg hf
    simp [entC6, parse, processKeys, writeStep, keyOutcome, lookupMapping, lookupMappingList,
      mappingKeys, discardsEmpty, Entity.mappings, Entity.discards,
      activeKeysBase, sortStrings, idFront, condSkips, Mapping.condP,
      Mapping.usingE, Mapping.act, Mapping.dflt, Mapping.type, rawValue, hf,
      lodashGet, splitDots, splitDotsAux, getSegs, lookupKey,
      applyConvertCaught, dynConvert, convertScalar, dynTo, getConverter,
      builtinRegistry, convertAny, lodashSet, setSegs, setKeyList,
      normOptions, JSValue.isNil, JSValue.isEmptyJS, JSValue.isPlainObject,
      JSValue.isObjectJS, JSValue.isUndef, defaultMapping, topKeys]
  · simp [entC6b, parse, processKeys, writeStep, keyOutcome, lookupMapping, lookupMappingList,
      mappingKeys, discardsEmpty, Entity.mappings, Entity.discards,
      activeKeysBase, sortStrings, idFront, condSkips, Mapping.condP,
      Mapping.usingE, Mapping.act, Mapping.dflt, Mapping.type, rawValue,
      lodashGet, splitDots, splitDotsAux, getSegs, lookupKey,
      applyConvertCaught, dynConvert, convertScalar, dynTo, getConverter,
      builtinRegistry, convertAny, lodashSet, setSegs, setKeyList,
      normOptions, JSValue.isNil, JSValue.isEmptyJS, JSValue.isPlainObject,
      JSValue.isObjectJS, JSValue.isUndef, defaultMapping, topKeys]

/-- A concrete throwing field callback. -/
def fBoom : FieldFn := fun _ _ => .error "boom"

/-- C6 witness. -/
theorem c6_errors_contained_witness :
    parse builtinRegistry (entC6 fBoom) (.obj [("a", .number 1)]) (.obj []) none =
      .obj [("x", .null)] :=
  c6_errors_contained.1 fBoom "boom" rfl

mutual

theorem convertScalar_ok_eq {reg : Registry} {t : String} {ctx : JSValue}
    (h : getConverter reg t = none) :
    ∀ (v w : JSValue), convertScalar reg t ctx v = .ok w → w = v
  | .arr xs, w, hw => by
      simp only [convertScalar] at hw
      cases hl : convertList reg t ctx xs with
      | error m => rw [hl] at hw; simp [Except.map] at hw
      | ok ws =>
          rw [hl] at hw
          simp only [Except.map, Except.ok.injEq] at hw
          have hws := convertList_ok_eq h xs ws hl
          subst hws
          exact hw.symm
  | .undef, w, hw => by simp [convertScalar, dynTo, h] at hw
  | .null, w, hw => by simp [convertScalar, dynTo, h] at hw
  | .boolean b, w, hw => by simp [convertScalar, dynTo, h] at hw
  | .number n, w, hw => by simp [convertScalar, dynTo, h] at hw
  | .nan, w, hw => by simp [convertScalar, dynTo, h] at hw
  | .str s, w, hw => by simp [convertScalar, dynTo, h] at hw
  | .obj kvs, w, hw => by simp [convertScalar, dynTo, h] at hw
  | .date d, w, hw => by simp [convertScalar, dynTo, h] at hw

theorem convertList_ok_eq {reg : Registry} {t : String} {ctx : JSValue}
    (h : getConverter reg t = none) :
    ∀ (vs ws : List JSValue), convertList reg t ctx vs = .ok ws → ws = vs
  | [], ws, hw => by
      simp only [convertList, Except.ok.injEq] at hw
      exact hw.symm
  | v :: vs, ws, hw => by
      cases hv : convertScalar reg t ctx v with
      | error m => simp [convertList, hv, bind, Except.bind] at hw
      | ok w' =>
          cases hl : convertList reg t ctx vs with
          | error m => simp [convertList, hv, hl, bind, Except.bind] at hw
          | ok ws' =>
              simp only [convertList, hv, hl, bind, Except.bind,
                Except.ok.injEq] at hw
              have h1 := convertScalar_ok_eq h v w' hv
              have h2 := convertList_ok_eq h vs ws' hl
              subst h1
              subst h2
              exact hw.symm

end

/-- The entity of the C3 scenario: a fixed value declared with the
unregistered type `foo`. -/
def entC3 : Entity :=
  .mk "C3" [("x", Mapping.mk (.scalar "foo") (.valueA (.number 5)) .null none none)]
    none false

/-- C3 — counterexample: a direct `Dynamic#to` call for the unregistered
type does fail, but `parse` over a rule of that type completes normally with
the pre-coercion value — the caller of `parse` observes no failure, because
lines 331-336 of entity.js wrap `Dynamic.convert` in try/catch. -/
theorem c3_counterexample :
    dynTo builtinRegistry (.number 5) "foo" (.obj []) =
      .error "No Type converter defined for foo"
    ∧ parse builtinRegistry entC3 (.obj [("a", .number 1)]) (.obj []) none =
        .obj [("x", .number 5)] := by
  constructor
  · rfl
  · simp [entC3, parse, processKeys, writeStep, keyOutcome, lookupMapping, lookupMappingList,
      mappingKeys, discardsEmpty, Entity.mappings, Entity.discards,
      activeKeysBase, sortStrings, idFront, condSkips, Mapping.condP,
      Mapping.usingE, Mapping.act, Mapping.dflt, Mapping.type, rawValue,
      lodashGet, splitDots, splitDotsAux, getSegs, lookupKey,
      applyConvertCaught, dynConvert, convertScalar, dynTo, getConverter,
      builtinRegistry, lodashSet, setSegs, setKeyList, normOptions,
      JSValue.isNil, JSValue.isEmptyJS, JSValue.isPlainObject,
      JSValue.isObjectJS, JSValue.isUndef, defaultMapping, topKeys]

/-- C3 (amended): inside `parse`, a field whose declared scalar type has no
registered converter does not make `parse` fail: the "no converter" error is
caught and the field keeps its pre-coercion value (for every value, the
caught cast is the identity when the type is unregistered); only direct
`convert`/`to` calls fail synchronously. -/
theorem c3_unknown_type_contained :
    (∀ (reg : Registry) (t : String) (ctx val : JSValue),
      getConverter reg t = none →
      applyConvertCaught reg val (.scalar t) ctx = val)
    ∧ parse builtinRegistry entC3 (.obj [("b", .number 2)]) (.obj []) none =
        .obj [("x", .number 5)] := by
  constructor
  · intro reg t ctx val h
    have hd : dynConvert reg val (.scalar t) ctx = convertScalar reg t ctx val := rfl
    unfold applyConvertCaught
    rw [hd]
    cases hr : convertScalar reg t ctx val with
    | ok w => exact convertScalar_ok_eq h val w hr
    | error m => rfl
  · simp [entC3, parse, processKeys, writeStep, keyOutcome, lookupMapping, lookupMappingList,
      mappingKeys, discardsEmpty, Entity.mappings, Entity.discards,
      activeKeysBase, sortStrings, idFront, condSkips, Mapping.condP,
      Mapping.usingE, Mapping.act, Mapping.dflt, Mapping.type, rawValue,
      lodashGet, splitDots, splitDotsAux, getSegs, lookupKey,
      applyConvertCaught, dynConvert, convertScalar, dynTo, getConverter,
      builtinRegistry, lodashSet, setSegs, setKeyList, normOptions,
      JSValue.isNil, JSValue.isEmptyJS, JSValue.isPlainObject,
      JSValue.isObjectJS, JSValue.isUndef, defaultMapping, topKeys]

/-- C3 witness. -/
theorem c3_unknown_type_contained_witness :
    applyConvertCaught builtinRegistry (.number 9) (.scalar "foo") (.obj []) =
      .number 9 :=
  c3_unknown_type_contained.1 builtinRegistry "foo" (.obj []) (.number 9) rfl

theorem exposeOne_default_null {opts : ExposeOptions} {fn : Option FieldFn}
    {e e' : Entity} {nm : String} (hd : opts.hasDefault = false)
    (h : exposeOne opts fn e nm = .ok e') :
    ∀ k m, lookupMapping e' k = some m →
      lookupMapping e k = some m ∨ m.dflt = .null := by
  intro k m hm
  unfold exposeOne at h
  simp only [hd, Bool.false_eq_true, if_false] at h
  repeat' split at h
  all_goals injection h
  all_goals
    rename_i h'
    subst h'
    rw [lookupMapping_setMappingOn] at hm
    split at hm
    · right
      injection hm with hm'
      subst hm'
      rfl
    · left
      exact hm

theorem foldlM_exposeOne_default_null :
    ∀ (names : List String) (e e' : Entity) (opts : ExposeOptions)
      (fn : Option FieldFn),
      opts.hasDefault = false →
      names.foldlM (exposeOne opts fn) e = .ok e' →
      ∀ k m, lookupMapping e' k = some m →
        lookupMapping e k = some m ∨ m.dflt = .null
  | [], e, e', opts, fn, _, h, k, m, hm => by
      simp only [List.foldlM, pure, Except.pure, Except.ok.injEq] at h
      subst h
      exact Or.inl hm
  | nm :: rest, e, e', opts, fn, hd, h, k, m, hm => by
      cases hg : exposeOne opts fn e nm with
      | error msg => simp [List.foldlM, hg, bind, Except.bind] at h
      | ok e1 =>
          simp only [List.foldlM, hg, bind, Except.bind] at h
          have hrec :=
            foldlM_exposeOne_default_null rest e1 e' opts fn hd h k m hm
          cases hrec with
          | inl h1 =>
              exact exposeOne_default_null hd hg k m h1
          | inr h2 => exact Or.inr h2

/-- The entity stored by `expose('name')` with empty options: note the
`default` field is null, not undefined. -/
def entC1 : Entity :=
  .mk "C1" [("name", Mapping.mk (.scalar "any") (.aliasA "name") .null none none)]
    none false

/-- C1 (amended): for every field rule built by `expose` whose options do not
contain a `default` key, the stored default is null — a configured default,
indistinguishable in `parse` from an explicit null default — so an undefined
resolved raw value is replaced by null, and for a null-preserving type such
as `any` the key is written with value null rather than omitted.  (Only the
rule synthesized for discard-mode pass-through keys has an undefined
default.) -/
theorem c1_no_default_option_stores_null :
    (∀ (e : Entity) (names : List String) (opts : ExposeOptions)
        (fn : Option FieldFn) (e' : Entity) (k : String) (m : Mapping),
      opts.hasDefault = false →
      expose e names opts fn = .ok e' →
      lookupMapping e' k = some m →
      lookupMapping e k = some m ∨ m.dflt = .null)
    ∧ expose (newEntity "C1") ["name"] {} none = .ok entC1
    ∧ parse builtinRegistry entC1 (.obj [("other", .number 1)]) (.obj []) none =
        .obj [("name", .null)] := by
  refine ⟨?_, rfl, ?_⟩
  · intro e names opts fn e' k m hd h hm
    unfold expose at h
    split at h
    · cases h
    · split at h
      · cases h
      · split at h
        · cases h
        · exact foldlM_exposeOne_default_null names e e' opts fn hd h k m hm
  · simp [entC1, parse, processKeys, writeStep, keyOutcome, lookupMapping, lookupMappingList,
      mappingKeys, discardsEmpty, Entity.mappings, Entity.discards,
      activeKeysBase, sortStrings, idFront, condSkips, Mapping.condP,
      Mapping.usingE, Mapping.act, Mapping.dflt, Mapping.type, rawValue,
      lodashGet, splitDots, splitDotsAux, getSegs, lookupKey,
      applyConvertCaught, dynConvert, convertScalar, dynTo, getConverter,
      builtinRegistry, convertAny, lodashSet, setSegs, setKeyList,
      normOptions, JSValue.isNil, JSValue.isEmptyJS, JSValue.isPlainObject,
      JSValue.isObjectJS, JSValue.isUndef, JSValue.isNil, defaultMapping,
      topKeys]

/-- C1 witness. -/
theorem c1_no_default_option_stores_null_witness :
    lookupMapping (newEntity "W1") "a" =
        some (Mapping.mk (.scalar "any") (.aliasA "a") .null none none)
      ∨ (Mapping.mk (.scalar "any") (.aliasA "a") .null none none).dflt = .null :=
  c1_no_default_option_stores_null.1 (newEntity "W1") ["a"] {} none
    (Entity.mk "W1" [("a", Mapping.mk (.scalar "any") (.aliasA "a") .null none none)]
      none false)
    "a" (Mapping.mk (.scalar "any") (.aliasA "a") .null none none) rfl rfl rfl

theorem parse_normOptions (reg : Registry) (e : Entity) (x options : JSValue)
    (conv : Option UserConv) :
    parse reg e x options conv = parse reg e x (normOptions options) conv := by
  rw [parse.eq_def, parse.eq_def, normOptions_idem]

theorem parseList_map (reg : Registry) (e : Entity) (xs : List JSValue)
    (options : JSValue) (conv : Option UserConv) :
    parseList reg e xs options conv =
      xs.map (fun x => parse reg e x options conv) := by
  induction xs with
  | nil => rw [parseList.eq_def]; rfl
  | cons x rest ih => rw [parseList.eq_def]; simp only [List.map_cons]; rw [ih]

/-- C7: parsing an array parses each element with the same options and
converter, returning an array of the same length with element `i` equal to
`parse` of element `i`; all field-rule logic is bypassed. -/
theorem c7_array_elementwise :
    ∀ (reg : Registry) (e : Entity) (xs : List JSValue) (options : JSValue)
      (conv : Option UserConv),
      parse reg e (.arr xs) options conv =
        .arr (xs.map (fun x => parse reg e x options conv)) := by
  intro reg e xs options conv
  cases xs with
  | nil => rw [parse.eq_def]; rfl
  | cons x rest =>
      rw [parse.eq_def]
      simp only [JSValue.isNil, JSValue.isEmptyJS, List.isEmpty_cons,
        Bool.or_false, Bool.false_or]
      rw [parseList_map]
      simp only [Bool.false_eq_true, if_false, List.map_cons, JSValue.arr.injEq,
        List.cons.injEq]
      refine ⟨(parse_normOptions reg e x options conv).symm, ?_⟩
      simp only [List.map_inj_left]
      intro a _
      exact (parse_normOptions reg e a options conv).symm

theorem processKeys_foldl (reg : Registry) (e : Entity) (L : List String)
    (obj options : JSValue) (conv : Option UserConv) (r : JSValue) :
    processKeys reg e L obj options conv r =
      L.foldl (writeStep reg e obj options conv) r := by
  induction L generalizing r with
  | nil => rw [processKeys.eq_def]; rfl
  | cons k ks ih =>
      rw [processKeys.eq_def]
      simp only [List.foldl_cons]
      exact ih _

theorem setKeyList_keys (kvs : List (String × JSValue)) (k : String)
    (v : JSValue) :
    (setKeyList kvs k v).map Prod.fst =
      if k ∈ kvs.map Prod.fst then kvs.map Prod.fst
      else kvs.map Prod.fst ++ [k] := by
  induction kvs with
  | nil => simp [setKeyList]
  | cons a rest ih =>
      obtain ⟨k1, v1⟩ := a
      by_cases h1 : k1 = k
      · subst h1
        simp [setKeyList]
      · have h2 : ¬ k = k1 := fun h => h1 h.symm
        by_cases hm : k ∈ rest.map Prod.fst
        · simp [setKeyList, h1, ih, hm, h2]
        · simp [setKeyList, h1, ih, hm, h2]

theorem setSegs_obj (kvs : List (String × JSValue)) (p : List String)
    (v : JSValue) : ∃ kvs', setSegs (.obj kvs) p v = .obj kvs' := by
  match p with
  | [] => exact ⟨kvs, rfl⟩
  | [k] => exact ⟨setKeyList kvs k v, rfl⟩
  | k :: k2 :: rest => exact ⟨_, rfl⟩

theorem insertionKeys_lodashSet (kvs : List (String × JSValue)) (k : String)
    (v : JSValue) (hk : splitDots k = [k]) :
    insertionKeys (lodashSet (.obj kvs) k v) =
      if k ∈ insertionKeys (.obj kvs) then insertionKeys (.obj kvs)
      else insertionKeys (.obj kvs) ++ [k] := by
  unfold lodashSet
  rw [hk]
  show insertionKeys (.obj (setKeyList kvs k v)) = _
  simp only [insertionKeys, setKeyList_keys]

theorem writeStep_obj (reg : Registry) (e : Entity) (obj options : JSValue)
    (conv : Option UserConv) (kvs : List (String × JSValue)) (k : String) :
    ∃ kvs', writeStep reg e obj options conv (.obj kvs) k = .obj kvs' := by
  rw [writeStep.eq_def]
  cases keyOutcome reg e obj options conv k with
  | none => exact ⟨kvs, rfl⟩
  | some v =>
      unfold lodashSet
      exact setSegs_obj kvs (splitDots k) v

theorem insertionKeys_writeStep (reg : Registry) (e : Entity) (obj options : JSValue)
    (conv : Option UserConv) (kvs : List (String × JSValue)) (k : String)
    (hk : splitDots k = [k]) :
    insertionKeys (writeStep reg e obj options conv (.obj kvs) k) =
      if (keyOutcome reg e obj options conv k).isSome
          && !(decide (k ∈ insertionKeys (.obj kvs)))
      then insertionKeys (.obj kvs) ++ [k] else insertionKeys (.obj kvs) := by
  rw [writeStep.eq_def]
  cases h : keyOutcome reg e obj options conv k with
  | none => simp
  | some v =>
      simp only [Option.isSome_some, Bool.true_and]
      rw [insertionKeys_lodashSet kvs k v hk]
      by_cases hm : k ∈ insertionKeys (.obj kvs)
      · simp [hm]
      · simp [hm]

theorem foldl_writeStep_keys (reg : Registry) (e : Entity)
    (obj options : JSValue) (conv : Option UserConv) :
    ∀ (L : List String) (kvs : List (String × JSValue)),
      L.Nodup → (∀ k ∈ L, splitDots k = [k]) →
      insertionKeys (L.foldl (writeStep reg e obj options conv) (.obj kvs)) =
        insertionKeys (.obj kvs) ++
          L.filter (fun k => (keyOutcome reg e obj options conv k).isSome
            && !(decide (k ∈ insertionKeys (.obj kvs))))
  | [], kvs, _, _ => by simp
  | k :: L', kvs, hnd, hdot => by
      have hk : splitDots k = [k] := hdot k (List.mem_cons_self k L')
      have hnd' : L'.Nodup := (List.nodup_cons.mp hnd).2
      have hkL : k ∉ L' := (List.nodup_cons.mp hnd).1
      have hdot' : ∀ x ∈ L', splitDots x = [x] := fun x hx =>
        hdot x (List.mem_cons_of_mem _ hx)
      obtain ⟨kvs1, hkvs1⟩ := writeStep_obj reg e obj options conv kvs k
      rw [List.foldl_cons, hkvs1,
        foldl_writeStep_keys reg e obj options conv L' kvs1 hnd' hdot']
      have hkeys1 : insertionKeys (.obj kvs1) =
          if (keyOutcome reg e obj options conv k).isSome
              && !(decide (k ∈ insertionKeys (.obj kvs)))
          then insertionKeys (.obj kvs) ++ [k] else insertionKeys (.obj kvs) := by
        rw [← hkvs1]
        exact insertionKeys_writeStep reg e obj options conv kvs k hk
      by_cases hw : (keyOutcome reg e obj options conv k).isSome = true
      · by_cases hm : k ∈ insertionKeys (.obj kvs)
        · rw [hkeys1]
          simp only [hw, hm, decide_True, Bool.not_true, Bool.and_false,
            Bool.false_eq_true, if_false]
          rw [List.filter_cons]
          simp only [hw, hm, decide_True, Bool.not_true, Bool.and_false,
            Bool.false_eq_true, if_false]
        · rw [hkeys1]
          simp only [hw, hm, decide_False, Bool.not_false, Bool.and_true,
            if_true]
          rw [List.filter_cons]
          simp only [hw, hm, decide_False, Bool.not_false, Bool.and_true,
            if_true, Bool.true_and]
          rw [List.filter_congr (q := fun x =>
            (keyOutcome reg e obj options conv x).isSome
              && !(decide (x ∈ insertionKeys (.obj kvs))))]
          · simp
          · intro x hx
            have hxk : x ≠ k := fun h => hkL (h ▸ hx)
            simp [List.mem_append, hxk]
      · have hw' : (keyOutcome reg e obj options conv k).isSome = false := by
          simp only [Bool.not_eq_true] at hw
          exact hw
        rw [hkeys1]
        simp only [hw', Bool.false_and, Bool.false_eq_true, if_false]
        rw [List.filter_cons]
        simp only [hw', Bool.false_and, Bool.false_eq_true, if_false]

theorem foldl_writeStep_objList (reg : Registry) (e : Entity)
    (obj options : JSValue) (conv : Option UserConv) :
    ∀ (L : List String) (kvs : List (String × JSValue)),
      ∃ kvs', L.foldl (writeStep reg e obj options conv) (.obj kvs) = .obj kvs'
  | [], kvs => ⟨kvs, rfl⟩
  | k :: L', kvs => by
      obtain ⟨kvs1, h1⟩ := writeStep_obj reg e obj options conv kvs k
      obtain ⟨kvs', h2⟩ := foldl_writeStep_objList reg e obj options conv L' kvs1
      exact ⟨kvs', by rw [List.foldl_cons, h1, h2]⟩

theorem jsKeyOrder_eq_self {ks : List String}
    (h : ∀ k ∈ ks, arrayIndexKey k = none) : jsKeyOrder ks = ks := by
  unfold jsKeyOrder
  have h1 : ks.filter (fun k => (arrayIndexKey k).isSome) = [] := by
    rw [List.filter_eq_nil_iff]
    intro a ha
    simp [h a ha]
  have h2 : ks.filter (fun k => (arrayIndexKey k).isNone) = ks := by
    apply List.filter_eq_self.mpr
    intro a ha
    simp [h a ha]
  rw [h1, h2]
  simp [List.insertionSort]

/-- C8 (amended): for a parse of a plain object under a definition with rules
or discard mode, provided the (well-formed, dot-free) active keys contain no
integer-like array-index string, the output object's key enumeration places
`id` first when present and all remaining top-level keys in strictly
ascending lexicographic order.  (JavaScript enumerates integer-like keys
before all others in ascending numeric order, regardless of the insertion
order produced by the sorted writes, so the law fails for digit-named
fields.) -/
theorem c8_key_order :
    ∀ (reg : Registry) (e : Entity) (kvs : List (String × JSValue))
      (options : JSValue) (conv : Option UserConv),
      kvs ≠ [] →
      ((mappingKeys e).isEmpty && discardsEmpty e) = false →
      (activeKeysBase e (.obj kvs)).Nodup →
      (∀ k ∈ activeKeysBase e (.obj kvs), splitDots k = [k]) →
      (∀ k ∈ activeKeysBase e (.obj kvs), arrayIndexKey k = none) →
      ((topKeys (parse reg e (.obj kvs) options conv)).filter
          (fun k => k ≠ "id")).Pairwise (· < ·)
        ∧ ("id" ∈ topKeys (parse reg e (.obj kvs) options conv) →
            (topKeys (parse reg e (.obj kvs) options conv)).head? = some "id") := by
  intro reg e kvs options conv hne hrd hnd hdots hidx
  have hfe : kvs.isEmpty = false := by
    cases kvs with
    | nil => exact absurd rfl hne
    | cons a t => rfl
  have hparse : parse reg e (.obj kvs) options conv =
      (idFront (sortStrings (activeKeysBase e (.obj kvs)))).foldl
        (writeStep reg e (.obj kvs) (normOptions options) conv) (.obj []) := by
    rw [parse.eq_def]
    simp only [JSValue.isNil, JSValue.isEmptyJS, hfe, Bool.or_self,
      Bool.false_eq_true, if_false, hrd, JSValue.isObjectJS, not_true_eq_false,
      Bool.false_eq_true, if_false]
    rw [processKeys_foldl]
  have hS_nodup : (sortStrings (activeKeysBase e (.obj kvs))).Nodup :=
    (List.perm_insertionSort _ _).nodup_iff.mpr hnd
  have hS_sorted : (sortStrings (activeKeysBase e (.obj kvs))).Sorted (· ≤ ·) :=
    List.sorted_insertionSort _ _
  have hS_lt : (sortStrings (activeKeysBase e (.obj kvs))).Sorted (· < ·) :=
    hS_sorted.lt_of_le hS_nodup
  have hS_dots : ∀ k ∈ sortStrings (activeKeysBase e (.obj kvs)),
      splitDots k = [k] :=
    fun k hk => hdots k ((List.perm_insertionSort _ _).mem_iff.mp hk)
  have hS_idx : ∀ k ∈ sortStrings (activeKeysBase e (.obj kvs)),
      arrayIndexKey k = none :=
    fun k hk => hidx k ((List.perm_insertionSort _ _).mem_iff.mp hk)
  have hid_idx : arrayIndexKey "id" = none := by decide
  obtain ⟨kvsOut, hOut⟩ := foldl_writeStep_objList reg e (.obj kvs)
    (normOptions options) conv
    (idFront (sortStrings (activeKeysBase e (.obj kvs)))) []
  have hIKOut : insertionKeys
      ((idFront (sortStrings (activeKeysBase e (.obj kvs)))).foldl
        (writeStep reg e (.obj kvs) (normOptions options) conv) (.obj [])) =
      kvsOut.map Prod.fst := by
    rw [hOut]
    rfl
  have hbridge : (∀ k ∈ kvsOut.map Prod.fst, arrayIndexKey k = none) →
      topKeys (parse reg e (.obj kvs) options conv) = kvsOut.map Prod.fst := by
    intro hmem
    rw [hparse, hOut]
    show jsKeyOrder (kvsOut.map Prod.fst) = kvsOut.map Prod.fst
    exact jsKeyOrder_eq_self hmem
  by_cases hid : "id" ∈ sortStrings (activeKeysBase e (.obj kvs))
  · -- `id` is among the active keys: it is processed first and again at its
    -- sorted position
    have hidf : idFront (sortStrings (activeKeysBase e (.obj kvs))) =
        "id" :: sortStrings (activeKeysBase e (.obj kvs)) := by
      simp [idFront, List.contains, List.elem_iff, hid]
    have hid_dot : splitDots "id" = ["id"] := rfl
    obtain ⟨kvs1, hkvs1⟩ :=
      writeStep_obj reg e (.obj kvs) (normOptions options) conv [] "id"
    have hkeys1 : insertionKeys (.obj kvs1) =
        if (keyOutcome reg e (.obj kvs) (normOptions options) conv "id").isSome
        then ["id"] else [] := by
      rw [← hkvs1, insertionKeys_writeStep reg e (.obj kvs) (normOptions options)
        conv [] "id" hid_dot]
      simp [insertionKeys]
    rw [hidf, List.foldl_cons, hkvs1,
      foldl_writeStep_keys reg e (.obj kvs) (normOptions options) conv _ kvs1
        hS_nodup hS_dots] at hIKOut
    rw [hkeys1] at hIKOut
    by_cases hw :
        (keyOutcome reg e (.obj kvs) (normOptions options) conv "id").isSome = true
    · rw [if_pos hw] at hIKOut
      have hmem : ∀ k ∈ kvsOut.map Prod.fst, arrayIndexKey k = none := by
        intro k hk
        rw [← hIKOut] at hk
        rcases List.mem_append.mp hk with hk1 | hk2
        · rw [List.mem_singleton.mp hk1]
          exact hid_idx
        · exact hS_idx k (List.mem_of_mem_filter hk2)
      rw [hbridge hmem, ← hIKOut]
      constructor
      · rw [List.singleton_append, List.filter_cons]
        simp only [ne_eq, not_true_eq_false, decide_False, Bool.false_eq_true,
          if_false, List.filter_filter]
        exact List.Pairwise.sublist (List.filter_sublist _) hS_lt
      · intro _
        rfl
    · have hw' :
          (keyOutcome reg e (.obj kvs) (normOptions options) conv "id").isSome
            = false := by
        simp only [Bool.not_eq_true] at hw
        exact hw
      rw [if_neg (by simp [hw']), List.nil_append] at hIKOut
      have hmem : ∀ k ∈ kvsOut.map Prod.fst, arrayIndexKey k = none := by
        intro k hk
        rw [← hIKOut] at hk
        exact hS_idx k (List.mem_of_mem_filter hk)
      rw [hbridge hmem, ← hIKOut]
      constructor
      · exact List.Pairwise.sublist (List.filter_sublist _) <|
          List.Pairwise.sublist (List.filter_sublist _) hS_lt
      · intro hmm
        exfalso
        have := (List.mem_filter.mp hmm).2
        simp only [List.not_mem_nil, decide_False, Bool.not_false,
          Bool.and_true] at this
        rw [hw'] at this
        exact Bool.false_ne_true this
  · -- `id` is not among the active keys
    have hidf : idFront (sortStrings (activeKeysBase e (.obj kvs))) =
        sortStrings (activeKeysBase e (.obj kvs)) := by
      simp [idFront, List.contains, List.elem_iff, hid]
    rw [hidf,
      foldl_writeStep_keys reg e (.obj kvs) (normOptions options) conv _ []
        hS_nodup hS_dots] at hIKOut
    simp only [insertionKeys, List.map_nil, List.nil_append] at hIKOut
    have hmem : ∀ k ∈ kvsOut.map Prod.fst, arrayIndexKey k = none := by
      intro k hk
      rw [← hIKOut] at hk
      exact hS_idx k (List.mem_of_mem_filter hk)
    rw [hbridge hmem, ← hIKOut]
    constructor
    · exact List.Pairwise.sublist (List.filter_sublist _) <|
        List.Pairwise.sublist (List.filter_sublist _) hS_lt
    · intro hmm
      exfalso
      exact hid (List.mem_of_mem_filter hmm)

/-- A concrete entity for the C8 witness: rules for `name` and `id`. -/
def entC8 : Entity :=
  .mk "W8"
    [("name", Mapping.mk (.scalar "any") (.aliasA "name") .null none none),
     ("id", Mapping.mk (.scalar "any") (.aliasA "id") .null none none)]
    none false

/-- C8 witness. -/
theorem c8_key_order_witness :
    ((topKeys (parse builtinRegistry entC8 (.obj [("x", .number 1)]) (.obj []) none)).filter
        (fun k => k ≠ "id")).Pairwise (· < ·)
      ∧ ("id" ∈ topKeys (parse builtinRegistry entC8 (.obj [("x", .number 1)]) (.obj []) none) →
          (topKeys (parse builtinRegistry entC8 (.obj [("x", .number 1)]) (.obj []) none)).head? =
            some "id") :=
  c8_key_order builtinRegistry entC8 [("x", .number 1)] (.obj []) none
    (List.cons_ne_nil _ _) rfl (by decide) (by decide) (by decide)

/-- A concrete entity with legal digit-only field names next to `id`. -/
def entC8digits : Entity :=
  .mk "D8"
    [("9", Mapping.mk (.scalar "any") (.aliasA "9") .null none none),
     ("10", Mapping.mk (.scalar "any") (.aliasA "10") .null none none),
     ("id", Mapping.mk (.scalar "any") (.aliasA "id") .null none none)]
    none false

/-- C8 — counterexample: digit field names are legal (`[a-zA-Z0-9_.]+`), and
JavaScript enumerates integer-like keys first in ascending numeric order
regardless of insertion order.  Parsing `{9:1, 10:2, id:3}` under rules for
`9`, `10` and `id` writes the backing entries in the order `id, 10, 9`, but
the object enumerates `["9", "10", "id"]`: the keys other than `id` are not
in ascending lexicographic order (`"10" < "9"` lexicographically), and `id`
is present but not first. -/
theorem c8_counterexample :
    topKeys (parse builtinRegistry entC8digits
        (.obj [("9", .number 1), ("10", .number 2), ("id", .number 3)])
        (.obj []) none) = ["9", "10", "id"]
    ∧ ¬ ((["9", "10", "id"].filter (fun k => k ≠ "id")).Pairwise
          ((· < ·) : String → String → Prop))
    ∧ (["9", "10", "id"] : List String).head? ≠ some "id" := by
  refine ⟨?_, ?_, ?_⟩
  · have g2 : ¬ ((['9'] : List Char) ≤ ['1', '0']) := by decide
    have g3 : ((['9'] : List Char) ≤ ['i', 'd']) := by decide
    have g4 : ((['1', '0'] : List Char) ≤ ['i', 'd']) := by decide
    simp [entC8digits, parse, processKeys, writeStep, keyOutcome, lookupMapping,
      lookupMappingList, mappingKeys, discardsEmpty, Entity.mappings,
      Entity.discards, activeKeysBase, sortStrings, List.insertionSort,
      List.orderedInsert, g2, g3, g4, idFront, condSkips, Mapping.condP,
      Mapping.usingE, Mapping.act, Mapping.dflt, Mapping.type, rawValue,
      lodashGet, splitDots, splitDotsAux, getSegs, lookupKey,
      applyConvertCaught, dynConvert, convertScalar, dynTo, getConverter,
      builtinRegistry, convertAny, lodashSet, setSegs, setKeyList,
      normOptions, JSValue.isNil, JSValue.isEmptyJS, JSValue.isPlainObject,
      JSValue.isObjectJS, JSValue.isUndef, defaultMapping, topKeys,
      jsKeyOrder, arrayIndexKey]
  · intro hp
    have hp' : List.Pairwise (fun a b : String => a < b) ["9", "10"] := by
      simpa using hp
    have h910 : ("9" : String) < "10" :=
      (List.pairwise_cons.mp hp').1 "10" (by simp)
    rw [String.lt_iff_toList_lt] at h910
    exact absurd h910 (by decide)
  · intro h
    simp at h

/-- C1 — counterexample: `expose('name')` with no `default` option stores a
rule whose `default` is null — which `parse` (checking `default !==
undefined`) treats as a configured default — so parsing an object without
the field writes the key with value null instead of omitting it. -/
theorem c1_counterexample :
    expose (newEntity "C1") ["name"] {} none = .ok entC1
    ∧ (Mapping.mk (.scalar "any") (.aliasA "name") .null none none).dflt ≠ .undef
    ∧ parse builtinRegistry entC1 (.obj [("z", .number 3)]) (.obj []) none =
        .obj [("name", .null)] := by
  refine ⟨rfl, ?_, ?_⟩
  · intro h
    exact JSValue.noConfusion h
  · simp [entC1, parse, processKeys, writeStep, keyOutcome, lookupMapping,
      lookupMappingList, mappingKeys, discardsEmpty, Entity.mappings,
      Entity.discards, activeKeysBase, sortStrings, idFront, condSkips,
      Mapping.condP, Mapping.usingE, Mapping.act, Mapping.dflt, Mapping.type,
      rawValue, lodashGet, splitDots, splitDotsAux, getSegs, lookupKey,
      applyConvertCaught, dynConvert, convertScalar, dynTo, getConverter,
      builtinRegistry, convertAny, lodashSet, setSegs, setKeyList,
      normOptions, JSValue.isNil, JSValue.isEmptyJS, JSValue.isPlainObject,
      JSValue.isObjectJS, JSValue.isUndef, defaultMapping, topKeys]
